import Mathlib

/-!
Verification development for the openfpga repository: shallow embeddings of
the gpdevboard USB transport helpers (src/gpdevboard/usb.cpp, gpdevboard.h)
and of the xbpar place-and-route engine described by the specification,
together with theorems settling the specification claims.
-/

namespace OpenFPGA

/-! ## USB transport layer (src/gpdevboard/usb.cpp) -/

/-- The libusb constant LIBUSB_ENDPOINT_OUT (host-to-device direction bit). -/
def LIBUSB_ENDPOINT_OUT : Nat := 0x00

/-- The libusb constant LIBUSB_ENDPOINT_IN (device-to-host direction bit). -/
def LIBUSB_ENDPOINT_IN : Nat := 0x80

/-- Outcome of one `libusb_interrupt_transfer` call: the returned error code
and the number of bytes actually transferred (written through the out
parameter `transferred`). -/
structure TransferOutcome where
  err : Int
  transferred : Nat
deriving DecidableEq, Repr

/-- An oracle standing for `libusb_interrupt_transfer`: given the endpoint
byte, the buffer size and the timeout in milliseconds, it yields the
outcome of the call. -/
def TransferOracle : Type := Nat → Nat → Nat → TransferOutcome

/-- Shallow embedding of `SendInterruptTransfer` (usb.cpp lines 36-47): it
calls `libusb_interrupt_transfer` on endpoint `2|LIBUSB_ENDPOINT_OUT` with a
250 ms timeout and returns `true` exactly when the call returned 0; the
`transferred` out-parameter is ignored. -/
def SendInterruptTransfer (usb : TransferOracle) (size : Nat) : Bool :=
  (usb (2 ||| LIBUSB_ENDPOINT_OUT) size 250).err == 0

/-- Shallow embedding of `ReceiveInterruptTransfer` (usb.cpp lines 49-60): it
calls `libusb_interrupt_transfer` on endpoint `1|LIBUSB_ENDPOINT_IN` with a
250 ms timeout and returns `true` exactly when the call returned 0; the
`transferred` out-parameter is ignored. -/
def ReceiveInterruptTransfer (usb : TransferOracle) (size : Nat) : Bool :=
  (usb (1 ||| LIBUSB_ENDPOINT_IN) size 250).err == 0

/-! ## DataFrame (gpdevboard.h) -/

/-- Shallow embedding of class `DataFrame` (gpdevboard.h): the three `uint8_t`
header fields are modelled as `Nat` carried modulo 256 where arithmetic
wraps, and `m_payload` as a list of bytes. -/
structure DataFrame where
  m_type : Nat
  m_sequenceA : Nat
  m_sequenceB : Nat
  m_payload : List Nat
deriving DecidableEq, Repr

/-- Embedding of the constructor `DataFrame(uint8_t type)`: type as given,
`m_sequenceA = 1`, `m_sequenceB = 0`, empty payload. -/
def DataFrame.ofType (type : Nat) : DataFrame :=
  { m_type := type, m_sequenceA := 1, m_sequenceB := 0, m_payload := [] }

/-- Embedding of `DataFrame::Next()` (gpdevboard.h lines 207-213): builds
`DataFrame next_frame(m_type)` and then overwrites its sequence fields with
`m_sequenceA + 1` and `m_sequenceB - 1`, both computed in `uint8_t`
arithmetic (modulo 256). The receiver is not modified: `Next` is a pure
function of the frame. -/
def DataFrame.Next (f : DataFrame) : DataFrame :=
  { DataFrame.ofType f.m_type with
      m_sequenceA := (f.m_sequenceA + 1) % 256,
      m_sequenceB := (f.m_sequenceB + 255) % 256 }

/-- `IsEmpty` from gpdevboard.h: the payload has size 0. -/
def DataFrame.IsEmpty (f : DataFrame) : Bool :=
  f.m_payload.length == 0

/-! ## IOConfig (gpdevboard.h) -/

/-- Values of the `TPConfig` enum that the `IOConfig` constructor uses. -/
def TP_FLOAT : Nat := 0x0200

/-- `TP_NC` is defined in the enum as `TP_FLOAT`. -/
def TP_NC : Nat := TP_FLOAT

/-- Shallow embedding of class `IOConfig` (gpdevboard.h lines 105-133): four
arrays of 21 entries each, modelled as functions from `Fin 21`. -/
structure IOConfig where
  driverConfigs : Fin 21 → Nat
  ledEnabled : Fin 21 → Bool
  ledInverted : Fin 21 → Bool
  expansionEnabled : Fin 21 → Bool

/-- Embedding of the `IOConfig()` constructor: the loop
`for(i=0; i<21; i++)` sets every `driverConfigs[i]` to `TP_NC` and every
entry of the three boolean arrays to `false`. -/
def IOConfig.ctor : IOConfig :=
  { driverConfigs := fun _ => TP_NC,
    ledEnabled := fun _ => false,
    ledInverted := fun _ => false,
    expansionEnabled := fun _ => false }

/-! ## OpenDevice (src/gpdevboard/usb.cpp lines 91-205) -/

/-- A USB device as seen during enumeration: whether
`libusb_get_device_descriptor` succeeds, and the descriptor's vendor and
product ids. -/
structure USBDeviceInfo where
  descOk : Bool
  idVendor : Nat
  idProduct : Nat
deriving DecidableEq, Repr

/-- The conditions under which the `OpenDevice` loop body reaches the
`nboard` bookkeeping: descriptor read succeeded and the vendor id matches
(usb.cpp lines 113-119). -/
def devOkVendor (vid : Nat) (d : USBDeviceInfo) : Bool :=
  d.descOk && (d.idVendor == vid)

/-- A device that matches both the vendor and the product id. -/
def devFull (vid pid : Nat) (d : USBDeviceInfo) : Bool :=
  devOkVendor vid d && (d.idProduct == pid)

/-- Embedding of the enumeration loop of `OpenDevice` (usb.cpp lines
109-138), returning the index of the selected device. A device whose
descriptor fails to read or whose vendor differs is skipped; while
`nboard > 0` each vendor match decrements `nboard` and is skipped
regardless of its product id; once `nboard` reaches 0 the product id of
each further vendor match is compared, and the loop breaks on the first
match. -/
def scanDevices (vid pid : Nat) : List USBDeviceInfo → Nat → Option Nat
  | [], _ => none
  | d :: rest, nboard =>
    if devOkVendor vid d then
      if 0 < nboard then (scanDevices vid pid rest (nboard - 1)).map (· + 1)
      else if d.idProduct == pid then some 0
      else (scanDevices vid pid rest 0).map (· + 1)
    else (scanDevices vid pid rest nboard).map (· + 1)

/-- Instrumented variant of `scanDevices` returning the indices of the
devices on which the product-id comparison of usb.cpp line 133 actually
executes, in execution order. -/
def scanPidChecks (vid pid : Nat) : List USBDeviceInfo → Nat → List Nat
  | [], _ => []
  | d :: rest, nboard =>
    if devOkVendor vid d then
      if 0 < nboard then (scanPidChecks vid pid rest (nboard - 1)).map (· + 1)
      else if d.idProduct == pid then [0]
      else 0 :: (scanPidChecks vid pid rest 0).map (· + 1)
    else (scanPidChecks vid pid rest nboard).map (· + 1)

/-- Number of vendor matches among the devices strictly before index `i`
(the ordinal, among vendor matches, of the device at index `i`). -/
def vendorCountBefore (vid : Nat) (devs : List USBDeviceInfo) (i : Nat) : Nat :=
  ((devs.take i).filter (devOkVendor vid)).length

/-- Result of `OpenDevice`: the returned handle (None standing for NULL)
and whether `libusb_get_device_list` was called at all. -/
structure OpenResult where
  handle : Option Nat
  enumerated : Bool
deriving DecidableEq, Repr

/-- Embedding of `OpenDevice` (usb.cpp lines 91-205). The initial sanity
check rejects a negative `nboard` before any enumeration; otherwise the
device list is enumerated and scanned. The post-selection setup on the
chosen device — `libusb_open`, kernel-driver detach, `set_configuration`
(with its busy-retry loop) and `claim_interface`, lines 139-204, each of
which may fail and yield NULL — is abstracted as the oracle `post` from the
selected index to the final handle. -/
def OpenDevice (vid pid : Nat) (nboard : Int) (devs : List USBDeviceInfo)
    (post : Nat → Option Nat) : OpenResult :=
  if nboard < 0 then ⟨none, false⟩
  else
    match scanDevices vid pid devs nboard.toNat with
    | none => ⟨none, true⟩
    | some i => ⟨post i, true⟩

theorem vendorCountBefore_zero (vid : Nat) (devs : List USBDeviceInfo) :
    vendorCountBefore vid devs 0 = 0 := rfl

theorem vendorCountBefore_cons (vid : Nat) (d : USBDeviceInfo)
    (rest : List USBDeviceInfo) (j : Nat) :
    vendorCountBefore vid (d :: rest) (j + 1) =
      (if devOkVendor vid d then 1 else 0) + vendorCountBefore vid rest j := by
  simp only [vendorCountBefore, List.take_succ_cons, List.filter_cons]
  by_cases h : devOkVendor vid d = true
  · simp [h]
    omega
  · simp [h]

/-- A device index `i` is selectable for skip count `n` when the device at
`i` matches both ids and at least `n` vendor matches precede it. -/
def Selectable (vid pid : Nat) (devs : List USBDeviceInfo) (n i : Nat) : Prop :=
  (∃ d, devs.get? i = some d ∧ devFull vid pid d = true) ∧
    n ≤ vendorCountBefore vid devs i

instance (vid pid : Nat) (devs : List USBDeviceInfo) (n i : Nat) :
    Decidable (Selectable vid pid devs n i) := by
  unfold Selectable
  infer_instance

/-- The scan loop selects exactly the least selectable index. -/
theorem scanDevices_characterization (vid pid : Nat) :
    ∀ (devs : List USBDeviceInfo) (n i : Nat),
      scanDevices vid pid devs n = some i ↔
        (Selectable vid pid devs n i ∧
          ∀ j, j < i → ¬ Selectable vid pid devs n j) := by
  intro devs
  induction devs with
  | nil =>
    intro n i
    simp [scanDevices, Selectable]
  | cons d rest ih =>
    intro n i
    by_cases hv : devOkVendor vid d = true
    · by_cases hn : 0 < n
      · -- vendor match consumed by the skip counter
        have hne : n ≠ 0 := Nat.pos_iff_ne_zero.mp hn
        simp only [scanDevices, hv, if_pos rfl, hn, if_pos rfl]
        constructor
        · rintro h
          obtain ⟨i0, hi0, rfl⟩ := Option.map_eq_some'.mp h
          obtain ⟨hsel, hmin⟩ := (ih (n - 1) i0).mp hi0
          refine ⟨?_, ?_⟩
          · obtain ⟨⟨e, he, hef⟩, hcnt⟩ := hsel
            refine ⟨⟨e, by simpa using he, hef⟩, ?_⟩
            rw [vendorCountBefore_cons, if_pos hv]
            omega
          · intro j hj
            match j with
            | 0 =>
              rintro ⟨_, hc⟩
              rw [vendorCountBefore_zero] at hc
              omega
            | j + 1 =>
              rintro ⟨⟨e, he, hef⟩, hc⟩
              rw [vendorCountBefore_cons, if_pos hv] at hc
              exact hmin j (by omega) ⟨⟨e, by simpa using he, hef⟩, by omega⟩
        · rintro ⟨hsel, hmin⟩
          match i with
          | 0 =>
            exfalso
            obtain ⟨_, hc⟩ := hsel
            rw [vendorCountBefore_zero] at hc
            omega
          | i + 1 =>
            have : scanDevices vid pid rest (n - 1) = some i := by
              refine (ih (n - 1) i).mpr ⟨?_, ?_⟩
              · obtain ⟨⟨e, he, hef⟩, hc⟩ := hsel
                rw [vendorCountBefore_cons, if_pos hv] at hc
                exact ⟨⟨e, by simpa using he, hef⟩, by omega⟩
              · intro j hj hc
                obtain ⟨⟨e, he, hef⟩, hcnt⟩ := hc
                refine hmin (j + 1) (by omega) ⟨⟨e, by simpa using he, hef⟩, ?_⟩
                rw [vendorCountBefore_cons, if_pos hv]
                omega
            simp [this]
      · -- skip counter exhausted: the product id is compared
        have hn0 : n = 0 := by omega
        subst hn0
        by_cases hp : (d.idProduct == pid) = true
        · simp only [scanDevices, hv, if_pos rfl, Nat.lt_irrefl, if_neg (by omega : ¬ 0 < 0), hp,
            if_pos rfl]
          constructor
          · rintro h
            have hi : i = 0 := by
              cases h
              rfl
            subst hi
            refine ⟨⟨⟨d, rfl, ?_⟩, by omega⟩, by omega⟩
            simp [devFull, hv, hp]
          · rintro ⟨hsel, hmin⟩
            match i with
            | 0 => rfl
            | i + 1 =>
              exfalso
              refine hmin 0 (by omega) ⟨⟨d, rfl, ?_⟩, by omega⟩
              simp [devFull, hv, hp]
        · -- vendor match with wrong product id: not selected, scan continues
          simp only [scanDevices, hv, if_pos rfl, if_neg (by omega : ¬ 0 < 0), hp, if_neg,
            Bool.false_eq_true, not_false_eq_true]
          have hdf : devFull vid pid d = false := by
            simp [devFull, hv, hp]
          constructor
          · rintro h
            obtain ⟨i0, hi0, rfl⟩ := Option.map_eq_some'.mp h
            obtain ⟨hsel, hmin⟩ := (ih 0 i0).mp hi0
            refine ⟨?_, ?_⟩
            · obtain ⟨⟨e, he, hef⟩, _⟩ := hsel
              exact ⟨⟨e, by simpa using he, hef⟩, by omega⟩
            · intro j hj
              match j with
              | 0 =>
                rintro ⟨⟨e, he, hef⟩, _⟩
                simp only [List.get?_cons_zero, Option.some.injEq] at he
                subst he
                rw [hdf] at hef
                exact Bool.false_ne_true hef
              | j + 1 =>
                rintro ⟨⟨e, he, hef⟩, _⟩
                exact hmin j (by omega) ⟨⟨e, by simpa using he, hef⟩, by omega⟩
          · rintro ⟨hsel, hmin⟩
            match i with
            | 0 =>
              exfalso
              obtain ⟨⟨e, he, hef⟩, _⟩ := hsel
              simp only [List.get?_cons_zero, Option.some.injEq] at he
              subst he
              rw [hdf] at hef
              exact Bool.false_ne_true hef
            | i + 1 =>
              have : scanDevices vid pid rest 0 = some i := by
                refine (ih 0 i).mpr ⟨?_, ?_⟩
                · obtain ⟨⟨e, he, hef⟩, _⟩ := hsel
                  exact ⟨⟨e, by simpa using he, hef⟩, by omega⟩
                · intro j hj hc
                  obtain ⟨⟨e, he, hef⟩, _⟩ := hc
                  exact hmin (j + 1) (by omega) ⟨⟨e, by simpa using he, hef⟩, by omega⟩
              simp [this]
    · -- descriptor failure or vendor mismatch: skipped without bookkeeping
      have hdf : devFull vid pid d = false := by
        simp only [devFull, hv]
        simp at hv
        simp [devOkVendor, hv]
      simp only [scanDevices, hv, Bool.false_eq_true, if_neg, not_false_eq_true]
      constructor
      · rintro h
        obtain ⟨i0, hi0, rfl⟩ := Option.map_eq_some'.mp h
        obtain ⟨hsel, hmin⟩ := (ih n i0).mp hi0
        refine ⟨?_, ?_⟩
        · obtain ⟨⟨e, he, hef⟩, hc⟩ := hsel
          refine ⟨⟨e, by simpa using he, hef⟩, ?_⟩
          rw [vendorCountBefore_cons, if_neg (by simp [hv])]
          omega
        · intro j hj
          match j with
          | 0 =>
            rintro ⟨⟨e, he, hef⟩, _⟩
            simp only [List.get?_cons_zero, Option.some.injEq] at he
            subst he
            rw [hdf] at hef
            exact Bool.false_ne_true hef
          | j + 1 =>
            rintro ⟨⟨e, he, hef⟩, hc⟩
            rw [vendorCountBefore_cons, if_neg (by simp [hv])] at hc
            exact hmin j (by omega) ⟨⟨e, by simpa using he, hef⟩, by omega⟩
      · rintro ⟨hsel, hmin⟩
        match i with
        | 0 =>
          exfalso
          obtain ⟨⟨e, he, hef⟩, _⟩ := hsel
          simp only [List.get?_cons_zero, Option.some.injEq] at he
          subst he
          rw [hdf] at hef
          exact Bool.false_ne_true hef
        | i + 1 =>
          have : scanDevices vid pid rest n = some i := by
            refine (ih n i).mpr ⟨?_, ?_⟩
            · obtain ⟨⟨e, he, hef⟩, hc⟩ := hsel
              rw [vendorCountBefore_cons, if_neg (by simp [hv])] at hc
              exact ⟨⟨e, by simpa using he, hef⟩, by omega⟩
            · intro j hj hc
              obtain ⟨⟨e, he, hef⟩, hc2⟩ := hc
              refine hmin (j + 1) (by omega) ⟨⟨e, by simpa using he, hef⟩, ?_⟩
              rw [vendorCountBefore_cons, if_neg (by simp [hv])]
              omega
          simp [this]

/-! ## The xbpar place-and-route engine

The engine sources (PAREngine.cpp, PARGraph.cpp, PARGraphNode.cpp) are
listed by the xbpar CMake fragment but are not available; the definitions
below are therefore modelled from the specification. -/

/-- Modelled from the spec: a logical edge of the netlist graph (missing
PARGraph.cpp), a directed relationship from one node's named output port to
another node's named input port; nodes and ports are identified by stable
integer indices. -/
structure LEdge where
  src : Nat
  srcport : Nat
  dst : Nat
  dstport : Nat
deriving DecidableEq, Repr

/-- Modelled from the spec: the placement, i.e. the mutual mating
references between logical and physical nodes (missing PARGraphNode.cpp).
A logical node carries a forward reference to its assigned physical node
(or none) and a physical node a back reference to the logical node mated
to it (or none); both are index-based cross references. -/
structure Placement where
  l2p : Nat → Option Nat
  p2l : Nat → Option Nat

/-- The placement in which no node is mated. -/
def Placement.empty : Placement :=
  ⟨fun _ => none, fun _ => none⟩

/-- Modelled from the spec: mate logical node `l` with physical node `p`,
updating the two mutual references together (atomically, as a pair). -/
def Placement.mate (pl : Placement) (l p : Nat) : Placement :=
  ⟨fun a => if a = l then some p else pl.l2p a,
   fun b => if b = p then some l else pl.p2l b⟩

/-- Modelled from the spec: move logical node `l` onto physical node
`pnew`, releasing its previous physical node; both sides of the relation
are updated together. -/
def Placement.applyMove (pl : Placement) (l pnew : Nat) : Placement :=
  match pl.l2p l with
  | none => pl.mate l pnew
  | some pold =>
    ⟨fun a => if a = l then some pnew else pl.l2p a,
     fun b => if b = pnew then some l else if b = pold then none else pl.p2l b⟩

/-- Modelled from the spec: swap the physical assignments of two mated
logical nodes `x` and `y`, updating all four references together; if either
is unmated the placement is unchanged. -/
def Placement.applySwap (pl : Placement) (x y : Nat) : Placement :=
  match pl.l2p x, pl.l2p y with
  | some px, some py =>
    ⟨fun a => if a = x then some py else if a = y then some px else pl.l2p a,
     fun b => if b = px then some y else if b = py then some x else pl.p2l b⟩
  | _, _ => pl

/-- Mating symmetry: a physical node refers back to a logical node exactly
when that logical node refers forward to it. Because the two sides are
total functions, this also forces each node to have at most one mate. -/
def MatingSymmetric (pl : Placement) : Prop :=
  ∀ l p, pl.p2l p = some l ↔ pl.l2p l = some p

theorem MatingSymmetric.empty : MatingSymmetric Placement.empty := by
  intro l p
  simp [Placement.empty]

theorem MatingSymmetric.mate {pl : Placement} (hs : MatingSymmetric pl)
    {l p : Nat} (hl : pl.l2p l = none) (hp : pl.p2l p = none) :
    MatingSymmetric (pl.mate l p) := by
  intro a b
  simp only [Placement.mate]
  by_cases hb : b = p
  · subst hb
    by_cases ha : a = l
    · subst ha
      simp
    · simp only [if_pos rfl, if_neg ha]
      constructor
      · intro h
        exact absurd (Option.some.inj h) (fun e => ha e.symm)
      · intro h
        have := (hs a b).mpr h
        rw [hp] at this
        cases this
  · by_cases ha : a = l
    · subst ha
      simp only [if_neg hb, if_pos rfl]
      constructor
      · intro h
        have := (hs a b).mp h
        rw [hl] at this
        cases this
      · intro h
        exact absurd (Option.some.inj h) (fun e => hb e.symm)
    · simp only [if_neg hb, if_neg ha]
      exact hs a b

theorem MatingSymmetric.applyMove {pl : Placement} (hs : MatingSymmetric pl)
    {l pnew : Nat} (hp : pl.p2l pnew = none) :
    MatingSymmetric (pl.applyMove l pnew) := by
  rcases h : pl.l2p l with _ | pold
  · simpa [Placement.applyMove, h] using hs.mate h hp
  · have hpold : pl.p2l pold = some l := (hs l pold).mpr h
    have hne : pold ≠ pnew := by
      intro e
      rw [e, hp] at hpold
      cases hpold
    intro a b
    simp only [Placement.applyMove, h]
    by_cases hb : b = pnew
    · subst hb
      by_cases ha : a = l
      · subst ha
        simp
      · simp only [if_pos rfl, if_neg ha]
        constructor
        · intro h2
          exact absurd (Option.some.inj h2) (fun e => ha e.symm)
        · intro h2
          have := (hs a b).mpr h2
          rw [hp] at this
          cases this
    · by_cases hbo : b = pold
      · subst hbo
        by_cases ha : a = l
        · subst ha
          simp only [if_neg hb, if_pos rfl, if_pos rfl]
          constructor
          · intro h2
            cases h2
          · intro h2
            exact absurd (Option.some.inj h2) (fun e => hb e.symm)
        · simp only [if_neg hb, if_pos rfl, if_neg ha]
          constructor
          · intro h2
            cases h2
          · intro h2
            have := (hs a b).mpr h2
            rw [hpold] at this
            exact absurd (Option.some.inj this) (fun e => ha e.symm)
      · by_cases ha : a = l
        · subst ha
          simp only [if_neg hb, if_neg hbo, if_pos rfl]
          constructor
          · intro h2
            have := (hs a b).mp h2
            rw [h] at this
            exact absurd (Option.some.inj this).symm hbo
          · intro h2
            exact absurd (Option.some.inj h2) (fun e => hb e.symm)
        · simp only [if_neg hb, if_neg hbo, if_neg ha]
          exact hs a b

theorem MatingSymmetric.applySwap {pl : Placement} (hs : MatingSymmetric pl)
    (x y : Nat) : MatingSymmetric (pl.applySwap x y) := by
  rcases hx : pl.l2p x with _ | px
  · simp [Placement.applySwap, hx]
    exact hs
  · rcases hy : pl.l2p y with _ | py
    · simp [Placement.applySwap, hx, hy]
      exact hs
    · have hpx : pl.p2l px = some x := (hs x px).mpr hx
      have hpy : pl.p2l py = some y := (hs y py).mpr hy
      by_cases hxy : x = y
      · subst hxy
        have hpp : px = py := Option.some.inj (hx.symm.trans hy)
        subst hpp
        intro a b
        simp only [Placement.applySwap, hx, hy]
        by_cases hb : b = px
        · subst hb
          by_cases ha : a = x
          · subst ha
            simp [hx]
          · simp only [if_pos rfl, if_neg ha]
            constructor
            · intro h2
              exact absurd (Option.some.inj h2) (fun e => ha e.symm)
            · intro h2
              have := (hs a b).mpr h2
              rw [hpx] at this
              exact absurd (Option.some.inj this) (fun e => ha e.symm)
        · by_cases ha : a = x
          · subst ha
            simp only [if_neg hb, if_pos rfl]
            constructor
            · intro h2
              have := (hs a b).mp h2
              rw [hx] at this
              exact absurd (Option.some.inj this).symm hb
            · intro h2
              exact absurd (Option.some.inj h2) (fun e => hb e.symm)
          · simp only [if_neg hb, if_neg ha]
            exact hs a b
      · have hpp : px ≠ py := by
          intro e
          rw [e, hpy] at hpx
          exact hxy (Option.some.inj hpx).symm
        intro a b
        simp only [Placement.applySwap, hx, hy]
        by_cases hb : b = px
        · subst hb
          by_cases ha : a = x
          · subst ha
            simp only [if_pos rfl]
            constructor
            · intro h2
              exact absurd (Option.some.inj h2) (fun e => hxy e.symm)
            · intro h2
              exact absurd (Option.some.inj h2) (fun e => hpp e.symm)
          · by_cases hay : a = y
            · subst hay
              simp [if_pos rfl, if_neg ha]
            · simp only [if_pos rfl, if_neg ha, if_neg hay]
              constructor
              · intro h2
                exact absurd (Option.some.inj h2) (fun e => hay e.symm)
              · intro h2
                have := (hs a b).mpr h2
                rw [hpx] at this
                exact absurd (Option.some.inj this) (fun e => ha e.symm)
        · by_cases hbp : b = py
          · subst hbp
            by_cases ha : a = x
            · subst ha
              simp [if_neg hb, if_pos rfl]
            · by_cases hay : a = y
              · subst hay
                simp only [if_neg hb, if_pos rfl, if_neg ha]
                constructor
                · intro h2
                  exact absurd (Option.some.inj h2) (fun e => ha e.symm)
                · intro h2
                  exact absurd (Option.some.inj h2) (fun e => hb e.symm)
              · simp only [if_neg hb, if_pos rfl, if_neg ha, if_neg hay]
                constructor
                · intro h2
                  exact absurd (Option.some.inj h2) (fun e => ha e.symm)
                · intro h2
                  have := (hs a b).mpr h2
                  rw [hpy] at this
                  exact absurd (Option.some.inj this) (fun e => hay e.symm)
          · by_cases ha : a = x
            · subst ha
              simp only [if_neg hb, if_neg hbp, if_pos rfl]
              constructor
              · intro h2
                have := (hs a b).mp h2
                rw [hx] at this
                exact absurd (Option.some.inj this).symm hb
              · intro h2
                exact absurd (Option.some.inj h2) (fun e => hbp e.symm)
            · by_cases hay : a = y
              · subst hay
                simp only [if_neg hb, if_neg hbp, if_neg ha, if_pos rfl]
                constructor
                · intro h2
                  have := (hs a b).mp h2
                  rw [hy] at this
                  exact absurd (Option.some.inj this).symm hbp
                · intro h2
                  exact absurd (Option.some.inj h2) (fun e => hb e.symm)
              · simp only [if_neg hb, if_neg hbp, if_neg ha, if_neg hay]
                exact hs a b

/-- Modelled from the spec: the fixed inputs of one engine run (missing
PAREngine.cpp/PARGraph.cpp): the logical graph (a label per logical node
index, and the logical edges), the physical graph (a label per physical
node index; its static connectivity is consulted only through the pluggable
reachability predicate `reach`), and the label-compatibility table
`compat` from logical labels to the physical labels allowed to host them. -/
structure PARProblem where
  compat : Nat → Nat → Bool
  reach : Nat → Nat → Nat → Nat → Bool
  llabels : List Nat
  plabels : List Nat
  edges : List LEdge

/-- Modelled from the spec: engine configuration — random seed, iteration
budget and initial temperature. -/
structure PARConfig where
  seed : Nat
  maxIterations : Nat
  temp0 : Nat
deriving DecidableEq, Repr

/-- Modelled from the spec: the pseudo-random generator threaded through
the loop, seeded once at run start (a 32-bit linear congruential step). -/
def lcgNext (s : Nat) : Nat :=
  (s * 1664525 + 1013904223) % 4294967296

/-- Modelled from the spec: `edge_is_satisfied` — both endpoints of the
logical edge are mated, and the fabric's reachability predicate connects
the two physical nodes on the corresponding ports. -/
def edgeSatisfied (reach : Nat → Nat → Nat → Nat → Bool) (pl : Placement)
    (e : LEdge) : Bool :=
  match pl.l2p e.src, pl.l2p e.dst with
  | some ps, some pd => reach ps e.srcport pd e.dstport
  | _, _ => false

/-- Modelled from the spec: `cost` — the sum over all logical edges of a
penalty, 0 for a satisfied edge and a positive constant (1) for an
unsatisfied one. -/
def cost (reach : Nat → Nat → Nat → Nat → Bool) (edges : List LEdge)
    (pl : Placement) : Nat :=
  (edges.map (fun e => if edgeSatisfied reach pl e then 0 else 1)).sum

/-- Number of logical nodes carrying label `lab`. -/
def countLabel (labels : List Nat) (lab : Nat) : Nat :=
  (labels.filter (fun x => x == lab)).length

/-- Number of physical nodes whose label is compatible with logical label
`lab`. -/
def countCompat (compat : Nat → Nat → Bool) (plabels : List Nat)
    (lab : Nat) : Nat :=
  (plabels.filter (fun pl => compat lab pl)).length

/-- Modelled from the spec: the feasibility pre-check — scan the logical
labels in insertion order for one with more logical nodes than compatible
physical nodes, reporting the deficient label and the two counts. -/
def capacityCheck (compat : Nat → Nat → Bool) (llabels plabels : List Nat) :
    Option (Nat × Nat × Nat) :=
  match llabels.find?
      (fun lab => countCompat compat plabels lab < countLabel llabels lab) with
  | none => none
  | some lab => some (lab, countLabel llabels lab, countCompat compat plabels lab)

/-- Modelled from the spec: the first (by insertion order) physical node
that is label-compatible with logical label `lab` and currently unmated. -/
def firstFreeCompat (compat : Nat → Nat → Bool) (plabels : List Nat)
    (pl : Placement) (lab : Nat) : Option Nat :=
  (List.range plabels.length).find?
    (fun p => compat lab (plabels.getD p 0) && (pl.p2l p).isNone)

/-- Modelled from the spec: the seeding pass — iterate the given logical
node indices in a stable order, mating each with the first label-compatible
unmated physical node; `none` signals `NoLegalSeed`. -/
def seedFrom (compat : Nat → Nat → Bool) (llabels plabels : List Nat) :
    List Nat → Placement → Option Placement
  | [], pl => some pl
  | l :: rest, pl =>
    match firstFreeCompat compat plabels pl (llabels.getD l 0) with
    | none => none
    | some p => seedFrom compat llabels plabels rest (pl.mate l p)

/-- Modelled from the spec: initial placement over all logical nodes,
starting from the empty mating. -/
def seedPlacement (compat : Nat → Nat → Bool) (llabels plabels : List Nat) :
    Option Placement :=
  seedFrom compat llabels plabels (List.range llabels.length) Placement.empty

/-- Modelled from the spec: the mutable search state threaded through the
loop — the placement, the random state and the iteration counter. -/
structure EngineState where
  pl : Placement
  rng : Nat
  iter : Nat

/-- Modelled from the spec: the incremental cost delta of a proposed
perturbation, computed here by full re-scoring (the spec's
correctness-preserving alternative to incremental re-evaluation). -/
def costDelta (prob : PARProblem) (oldPl newPl : Placement) : Int :=
  (cost prob.reach prob.edges newPl : Int) -
    (cost prob.reach prob.edges oldPl : Int)

/-- Modelled from the spec: the accept/reject policy — a negative or zero
delta is accepted unconditionally; a positive delta is accepted with a
probability that decays on a fixed schedule tied to the iteration count. -/
def acceptMove (cfg : PARConfig) (iter r : Nat) (delta : Int) : Bool :=
  if delta ≤ 0 then true
  else r % 100 < cfg.temp0 / (iter + 1)

/-- The label-compatible, currently unmated physical nodes available as
move targets for logical node `x` (in insertion order). -/
def moveCandidates (prob : PARProblem) (pl : Placement) (x : Nat) : List Nat :=
  (List.range prob.plabels.length).filter
    (fun p => prob.compat (prob.llabels.getD x 0) (prob.plabels.getD p 0)
        && (pl.p2l p).isNone)

/-- Modelled from the spec: a move perturbation — relocate logical node `x`
to a randomly chosen label-compatible unmated physical node, score the
delta, and accept or discard; the mating references are updated or restored
as a pair either way. -/
def tryMove (prob : PARProblem) (cfg : PARConfig) (st : EngineState)
    (x r3 r4 : Nat) : EngineState :=
  match moveCandidates prob st.pl x with
  | [] => ⟨st.pl, r4, st.iter + 1⟩
  | c :: cs =>
    let pnew := (c :: cs).getD (r3 % (c :: cs).length) 0
    let newPl := st.pl.applyMove x pnew
    if acceptMove cfg st.iter r4 (costDelta prob st.pl newPl) then
      ⟨newPl, r4, st.iter + 1⟩
    else ⟨st.pl, r4, st.iter + 1⟩

/-- Modelled from the spec: a swap perturbation — exchange the physical
assignments of logical nodes `x` and `y` when each label is compatible with
the other's current physical node, score the delta, and accept or discard;
an illegal or degenerate proposal is discarded without scoring. -/
def trySwap (prob : PARProblem) (cfg : PARConfig) (st : EngineState)
    (x y r4 : Nat) : EngineState :=
  if x = y then ⟨st.pl, r4, st.iter + 1⟩
  else
    match st.pl.l2p x, st.pl.l2p y with
    | some px, some py =>
      if prob.compat (prob.llabels.getD x 0) (prob.plabels.getD py 0)
          && prob.compat (prob.llabels.getD y 0) (prob.plabels.getD px 0) then
        let newPl := st.pl.applySwap x y
        if acceptMove cfg st.iter r4 (costDelta prob st.pl newPl) then
          ⟨newPl, r4, st.iter + 1⟩
        else ⟨st.pl, r4, st.iter + 1⟩
      else ⟨st.pl, r4, st.iter + 1⟩
    | _, _ => ⟨st.pl, r4, st.iter + 1⟩

/-- Modelled from the spec: one iteration of the improvement loop — draw
random values, pick a logical node and a perturbation kind, and delegate to
the move or swap handler. -/
def step (prob : PARProblem) (cfg : PARConfig) (st : EngineState) :
    EngineState :=
  let r1 := lcgNext st.rng
  let r2 := lcgNext r1
  let r3 := lcgNext r2
  let r4 := lcgNext r3
  if prob.llabels.length = 0 then ⟨st.pl, r4, st.iter + 1⟩
  else if r2 % 2 = 0 then
    tryMove prob cfg st (r1 % prob.llabels.length) r3 r4
  else
    trySwap prob cfg st (r1 % prob.llabels.length) (r3 % prob.llabels.length) r4

/-- Modelled from the spec: the bounded search loop — stop when the cost
reaches zero (Converged) or when the iteration budget is spent
(Exhausted). -/
def runLoop (prob : PARProblem) (cfg : PARConfig) :
    Nat → EngineState → EngineState
  | 0, st => st
  | fuel + 1, st =>
    if cost prob.reach prob.edges st.pl = 0 then st
    else runLoop prob cfg fuel (step prob cfg st)

/-- Modelled from the spec: the typed outcome of a run. -/
inductive PARResult where
  | InfeasibleCapacity (label nl np : Nat)
  | NoLegalSeed
  | Placed (pl : Placement) (finalCost : Nat)

/-- Result of a run together with the number of search iterations that
actually executed. -/
structure RunOutput where
  result : PARResult
  iterations : Nat

/-- Modelled from the spec: a full engine run (missing PAREngine.cpp) —
feasibility pre-check, then seeding, then the bounded improvement loop. -/
def run (prob : PARProblem) (cfg : PARConfig) : RunOutput :=
  match capacityCheck prob.compat prob.llabels prob.plabels with
  | some (lab, nl, np) => ⟨.InfeasibleCapacity lab nl np, 0⟩
  | none =>
    match seedPlacement prob.compat prob.llabels prob.plabels with
    | none => ⟨.NoLegalSeed, 0⟩
    | some pl0 =>
      let fin := runLoop prob cfg cfg.maxIterations ⟨pl0, lcgNext cfg.seed, 0⟩
      ⟨.Placed fin.pl (cost prob.reach prob.edges fin.pl), fin.iter⟩

theorem moveCandidates_unmated {prob : PARProblem} {pl : Placement}
    {x p : Nat} (h : p ∈ moveCandidates prob pl x) : pl.p2l p = none := by
  have h2 := (List.mem_filter.mp h).2
  simp only [Bool.and_eq_true, Option.isNone_iff_eq_none] at h2
  exact h2.2

theorem getD_mod_mem {l : List Nat} (h : l ≠ []) (n : Nat) :
    l.getD (n % l.length) 0 ∈ l := by
  have hlen : 0 < l.length := List.length_pos.mpr h
  have hlt : n % l.length < l.length := Nat.mod_lt _ hlen
  rw [List.getD_eq_getElem?_getD, List.getElem?_eq_getElem hlt]
  exact List.getElem_mem hlt

theorem tryMove_symm (prob : PARProblem) (cfg : PARConfig)
    (st : EngineState) (x r3 r4 : Nat) (hs : MatingSymmetric st.pl) :
    MatingSymmetric (tryMove prob cfg st x r3 r4).pl := by
  unfold tryMove
  cases hm : moveCandidates prob st.pl x with
  | nil => exact hs
  | cons c cs =>
    have hmem : (c :: cs).getD (r3 % (c :: cs).length) 0 ∈
        moveCandidates prob st.pl x := by
      rw [hm]
      exact getD_mod_mem (List.cons_ne_nil c cs) r3
    have hnone := moveCandidates_unmated hmem
    by_cases hacc : acceptMove cfg st.iter r4
        (costDelta prob st.pl
          (st.pl.applyMove x ((c :: cs).getD (r3 % (c :: cs).length) 0))) = true
    · simp only [hacc, if_pos rfl]
      exact hs.applyMove hnone
    · simp only [Bool.not_eq_true] at hacc
      simp only [hacc]
      exact hs

theorem trySwap_symm (prob : PARProblem) (cfg : PARConfig)
    (st : EngineState) (x y r4 : Nat) (hs : MatingSymmetric st.pl) :
    MatingSymmetric (trySwap prob cfg st x y r4).pl := by
  unfold trySwap
  by_cases hxy : x = y
  · simp only [hxy, if_pos rfl]
    exact hs
  · simp only [if_neg hxy]
    rcases hx : st.pl.l2p x with _ | px
    · exact hs
    · rcases hy : st.pl.l2p y with _ | py
      · exact hs
      · by_cases hcomp : (prob.compat (prob.llabels.getD x 0) (prob.plabels.getD py 0)
            && prob.compat (prob.llabels.getD y 0) (prob.plabels.getD px 0)) = true
        · simp only [hcomp, if_pos rfl]
          by_cases hacc : acceptMove cfg st.iter r4
              (costDelta prob st.pl (st.pl.applySwap x y)) = true
          · simp only [hacc, if_pos rfl]
            exact hs.applySwap x y
          · simp only [Bool.not_eq_true] at hacc
            simp only [hacc]
            exact hs
        · simp only [Bool.not_eq_true] at hcomp
          simp only [hcomp]
          exact hs

set_option maxRecDepth 4000 in
theorem step_symm (prob : PARProblem) (cfg : PARConfig) (st : EngineState)
    (hs : MatingSymmetric st.pl) : MatingSymmetric (step prob cfg st).pl := by
  unfold step
  by_cases hL : prob.llabels.length = 0
  · rw [if_pos hL]
    exact hs
  · by_cases h2 : lcgNext (lcgNext st.rng) % 2 = 0
    · rw [if_neg hL, if_pos h2]
      exact tryMove_symm _ _ _ _ _ _ hs
    · rw [if_neg hL, if_neg h2]
      exact trySwap_symm _ _ _ _ _ _ hs

theorem runLoop_symm (prob : PARProblem) (cfg : PARConfig) :
    ∀ (fuel : Nat) (st : EngineState), MatingSymmetric st.pl →
      MatingSymmetric (runLoop prob cfg fuel st).pl := by
  intro fuel
  induction fuel with
  | zero => intro st hs; exact hs
  | succ n ih =>
    intro st hs
    unfold runLoop
    by_cases hc : cost prob.reach prob.edges st.pl = 0
    · simp only [hc, if_pos rfl]
      exact hs
    · simp only [if_neg hc]
      exact ih _ (step_symm prob cfg st hs)

theorem seedFrom_symm (compat : Nat → Nat → Bool) (llabels plabels : List Nat) :
    ∀ (ls : List Nat) (pl : Placement), ls.Nodup → MatingSymmetric pl →
      (∀ l ∈ ls, pl.l2p l = none) →
      ∀ pl2, seedFrom compat llabels plabels ls pl = some pl2 →
        MatingSymmetric pl2 := by
  intro ls
  induction ls with
  | nil =>
    intro pl _ hs _ pl2 h
    simp only [seedFrom, Option.some.injEq] at h
    exact h ▸ hs
  | cons l rest ih =>
    intro pl hnd hs hun pl2 h
    simp only [seedFrom] at h
    rcases hf : firstFreeCompat compat plabels pl (llabels.getD l 0) with _ | p
    · rw [hf] at h
      cases h
    · rw [hf] at h
      unfold firstFreeCompat at hf
      have hpred := List.find?_some hf
      simp only [Bool.and_eq_true, Option.isNone_iff_eq_none] at hpred
      have hpnone : pl.p2l p = none := hpred.2
      have hlnone : pl.l2p l = none := hun l (List.mem_cons_self l rest)
      have hnd2 := List.nodup_cons.mp hnd
      refine ih (pl.mate l p) hnd2.2 (hs.mate hlnone hpnone) ?_ pl2 h
      intro l2 hl2
      have hne : l2 ≠ l := fun e => hnd2.1 (e ▸ hl2)
      simp only [Placement.mate, if_neg hne]
      exact hun l2 (List.mem_cons_of_mem l hl2)

theorem seedPlacement_symm (compat : Nat → Nat → Bool)
    (llabels plabels : List Nat) (pl0 : Placement)
    (h : seedPlacement compat llabels plabels = some pl0) :
    MatingSymmetric pl0 := by
  refine seedFrom_symm compat llabels plabels (List.range llabels.length)
    Placement.empty (List.nodup_range _) MatingSymmetric.empty ?_ pl0 h
  intro l _
  rfl

theorem run_placed_symm (prob : PARProblem) (cfg : PARConfig) :
    ∀ pl c, (run prob cfg).result = PARResult.Placed pl c →
      MatingSymmetric pl := by
  intro pl c h
  unfold run at h
  rcases hcc : capacityCheck prob.compat prob.llabels prob.plabels with _ | t
  · rw [hcc] at h
    rcases hsd : seedPlacement prob.compat prob.llabels prob.plabels with _ | pl0
    · rw [hsd] at h
      exact PARResult.noConfusion h
    · rw [hsd] at h
      injection h with h1 h2
      subst h1
      exact runLoop_symm prob cfg cfg.maxIterations
        ⟨pl0, lcgNext cfg.seed, 0⟩
        (seedPlacement_symm prob.compat prob.llabels prob.plabels pl0 hsd)
  · rw [hcc] at h
    rcases t with ⟨a, b, c2⟩
    exact PARResult.noConfusion h

/-! ## Theorems for the USB / devboard claims -/

/-- C9 counterexample: with `nboard = 0` the 0-th vendor match is the device
at index 0 (no vendor match precedes it), yet on a device list whose first
vendor match carries the wrong product id the product-id comparison also
executes on the device at index 1 and that later device is the one
selected. The product id is therefore not checked *only* on the nboard-th
vendor match, refuting that part of the claim. -/
theorem OpenDevice_pid_check_counterexample :
    scanPidChecks 0x0416 0xB006
        [⟨true, 0x0416, 0x0001⟩, ⟨true, 0x0416, 0xB006⟩] 0 = [0, 1] ∧
    vendorCountBefore 0x0416
        [⟨true, 0x0416, 0x0001⟩, ⟨true, 0x0416, 0xB006⟩] 0 = 0 ∧
    scanPidChecks 0x0416 0xB006
        [⟨true, 0x0416, 0x0001⟩, ⟨true, 0x0416, 0xB006⟩] 0 ≠ [0] ∧
    scanDevices 0x0416 0xB006
        [⟨true, 0x0416, 0x0001⟩, ⟨true, 0x0416, 0xB006⟩] 0 = some 1 := by
  decide

/-- C9 (amended): `OpenDevice` returns NULL for every negative board index
without enumerating any USB devices; for non-negative `nboard` the device
list is enumerated, the index counts vendor matches regardless of product
id, and the product id is compared on the nboard-th and every subsequent
vendor match until one matches: the device selected is exactly the first
device matching both ids that is preceded by at least `nboard` vendor
matches. -/
theorem OpenDevice_amended_behavior :
    ∀ (vid pid : Nat) (devs : List USBDeviceInfo) (post : Nat → Option Nat)
      (nboard : Int),
      (nboard < 0 → OpenDevice vid pid nboard devs post = ⟨none, false⟩) ∧
      (0 ≤ nboard → (OpenDevice vid pid nboard devs post).enumerated = true) ∧
      (∀ i, scanDevices vid pid devs nboard.toNat = some i ↔
        (Selectable vid pid devs nboard.toNat i ∧
          ∀ j, j < i → ¬ Selectable vid pid devs nboard.toNat j)) := by
  intro vid pid devs post nboard
  refine ⟨?_, ?_, fun i => scanDevices_characterization vid pid devs nboard.toNat i⟩
  · intro h
    simp [OpenDevice, h]
  · intro h
    simp only [OpenDevice, if_neg (not_lt.mpr h)]
    cases scanDevices vid pid devs nboard.toNat <;> rfl

/-- Witness for the amended C9 theorem: a negative index yields NULL with no
enumeration, and on a concrete two-device list the selected device is the
first full match preceded by at least zero vendor matches. -/
theorem OpenDevice_amended_behavior_witness :
    OpenDevice 0x0416 0xB006 (-1)
        [⟨true, 0x0416, 0xB006⟩] (fun i => some i) = ⟨none, false⟩ ∧
    scanDevices 0x0416 0xB006
        [⟨true, 0x0416, 0x0001⟩, ⟨true, 0x0416, 0xB006⟩] 0 = some 1 :=
  ⟨(OpenDevice_amended_behavior 0x0416 0xB006 [⟨true, 0x0416, 0xB006⟩]
      (fun i => some i) (-1)).1 (by decide),
   ((OpenDevice_amended_behavior 0x0416 0xB006
      [⟨true, 0x0416, 0x0001⟩, ⟨true, 0x0416, 0xB006⟩]
      (fun i => some i) 0).2.2 1).mpr (by decide)⟩

/-- C7: the USB transport helpers are a request/response pair over interrupt
transfers: `SendInterruptTransfer` issues its transfer on OUT endpoint 2
(`2|LIBUSB_ENDPOINT_OUT = 0x02`) and `ReceiveInterruptTransfer` on IN
endpoint 1 (`1|LIBUSB_ENDPOINT_IN = 0x81`), each with a 250 ms timeout;
each returns `true` if and only if the underlying
`libusb_interrupt_transfer` call returns 0, and neither inspects the number
of bytes actually transferred (any two oracles agreeing on error codes give
identical results). -/
theorem usb_transport_request_response :
    ∀ (usb : TransferOracle) (size : Nat),
      (SendInterruptTransfer usb size = true ↔
        (usb (2 ||| LIBUSB_ENDPOINT_OUT) size 250).err = 0) ∧
      (ReceiveInterruptTransfer usb size = true ↔
        (usb (1 ||| LIBUSB_ENDPOINT_IN) size 250).err = 0) ∧
      2 ||| LIBUSB_ENDPOINT_OUT = 2 ∧
      1 ||| LIBUSB_ENDPOINT_IN = 0x81 ∧
      (∀ usb2 : TransferOracle,
        (∀ e s t, (usb e s t).err = (usb2 e s t).err) →
        SendInterruptTransfer usb size = SendInterruptTransfer usb2 size ∧
        ReceiveInterruptTransfer usb size = ReceiveInterruptTransfer usb2 size) := by
  intro usb size
  refine ⟨?_, ?_, by decide, by decide, ?_⟩
  · simp [SendInterruptTransfer]
  · simp [ReceiveInterruptTransfer]
  · intro usb2 h
    constructor
    · simp [SendInterruptTransfer, h]
    · simp [ReceiveInterruptTransfer, h]

/-- Witness for C7: instantiating the transport theorem at two concrete
oracles that agree on error codes but differ in the transferred byte count
shows the transferred count is indeed never consulted. -/
theorem usb_transport_request_response_witness :
    SendInterruptTransfer (fun _ _ _ => ⟨0, 7⟩) 4 =
      SendInterruptTransfer (fun _ _ _ => ⟨0, 99⟩) 4 :=
  ((usb_transport_request_response (fun _ _ _ => ⟨0, 7⟩) 4).2.2.2.2
    (fun _ _ _ => ⟨0, 99⟩) (fun _ _ _ => rfl)).1

/-- C8: for every frame `f`, `f.Next()` yields a frame with the same type
byte, sequence counter A incremented modulo 256, sequence counter B
decremented modulo 256 (8-bit wraparound), and an empty payload; `Next` is a
pure function of `f`, so `f` itself is unchanged. -/
theorem DataFrame_Next_spec :
    ∀ f : DataFrame,
      f.Next.m_type = f.m_type ∧
      f.Next.m_sequenceA = (f.m_sequenceA + 1) % 256 ∧
      f.Next.m_sequenceB = (f.m_sequenceB + 256 - 1) % 256 ∧
      f.Next.m_payload = [] := by
  intro f
  refine ⟨rfl, rfl, ?_, rfl⟩
  show (f.m_sequenceB + 255) % 256 = (f.m_sequenceB + 256 - 1) % 256
  omega

/-- C10: every default-constructed `IOConfig` has all 21 `driverConfigs`
entries equal to `TP_NC` (which is `TP_FLOAT`, value 0x0200) and all 21
entries of `ledEnabled`, `ledInverted` and `expansionEnabled` equal to
`false`. -/
theorem IOConfig_ctor_defaults :
    (∀ i : Fin 21, IOConfig.ctor.driverConfigs i = TP_NC) ∧
    TP_NC = TP_FLOAT ∧
    TP_FLOAT = 0x0200 ∧
    (∀ i : Fin 21, IOConfig.ctor.ledEnabled i = false) ∧
    (∀ i : Fin 21, IOConfig.ctor.ledInverted i = false) ∧
    (∀ i : Fin 21, IOConfig.ctor.expansionEnabled i = false) :=
  ⟨fun _ => rfl, rfl, rfl, fun _ => rfl, fun _ => rfl, fun _ => rfl⟩

/-! ## Theorems for the engine claims -/

theorem cost_zero_all_satisfied (reach : Nat → Nat → Nat → Nat → Bool) :
    ∀ (edges : List LEdge) (pl : Placement),
      cost reach edges pl = 0 → ∀ e ∈ edges, edgeSatisfied reach pl e = true := by
  intro edges
  induction edges with
  | nil =>
    intro pl _ e he
    cases he
  | cons a as ih =>
    intro pl h e he
    rw [cost, List.map_cons, List.sum_cons] at h
    have h1 : (if edgeSatisfied reach pl a then 0 else 1) = 0 := by omega
    have h2 : cost reach as pl = 0 := by
      rw [cost]
      omega
    rcases List.mem_cons.mp he with rfl | he2
    · by_cases hsat : edgeSatisfied reach pl e = true
      · exact hsat
      · simp only [Bool.not_eq_true] at hsat
        rw [hsat] at h1
        cases h1
    · exact ih pl h2 e he2

/-- A small concrete problem used to instantiate the engine theorems: two
logical nodes of label 5 connected by one edge, three physical nodes of
label 5, exact label matching, and an always-true reachability predicate. -/
def demoProb : PARProblem :=
  ⟨fun a b => a == b, fun _ _ _ _ => true, [5, 5], [5, 5, 5], [⟨0, 0, 1, 0⟩]⟩

/-- A concrete configuration for instantiating the engine theorems. -/
def demoCfg : PARConfig := ⟨1, 8, 4⟩

/-- A structurally infeasible problem: three logical nodes of label 7
against two compatible physical nodes. -/
def demoInfeasibleProb : PARProblem :=
  ⟨fun a b => a == b, fun _ _ _ _ => true, [7, 7, 7], [7, 7], []⟩

/-- A concrete placement mating logical 0 with physical 0 and logical 1
with physical 1. -/
def demoPlacement : Placement :=
  (Placement.empty.mate 0 0).mate 1 1

theorem demoPlacement_symm : MatingSymmetric demoPlacement := by
  show MatingSymmetric ((Placement.empty.mate 0 0).mate 1 1)
  exact (MatingSymmetric.empty.mate rfl rfl).mate rfl rfl

/-- C1: mating symmetry. Every placement the engine produces — the seeded
placement, the placement after every step of the improvement loop (whether
the proposed move was accepted or discarded), and the final placement of a
completed run — satisfies `MatingSymmetric`: a physical node's back
reference names a logical node exactly when that logical node's forward
reference names it. As a consequence each logical node is mated to at most
one physical node and vice versa, and the pair of references is never
observable half-updated. -/
theorem mating_symmetry_invariant :
    ∀ (prob : PARProblem) (cfg : PARConfig),
      (∀ pl0, seedPlacement prob.compat prob.llabels prob.plabels = some pl0 →
        MatingSymmetric pl0) ∧
      (∀ st : EngineState, MatingSymmetric st.pl →
        MatingSymmetric (step prob cfg st).pl) ∧
      (∀ pl c, (run prob cfg).result = PARResult.Placed pl c →
        MatingSymmetric pl) ∧
      (∀ pl : Placement, MatingSymmetric pl →
        (∀ l1 l2 p, pl.l2p l1 = some p → pl.l2p l2 = some p → l1 = l2) ∧
        (∀ p1 p2 l, pl.p2l p1 = some l → pl.p2l p2 = some l → p1 = p2)) := by
  intro prob cfg
  refine ⟨?_, ?_, ?_, ?_⟩
  · exact fun pl0 h => seedPlacement_symm prob.compat prob.llabels prob.plabels pl0 h
  · exact fun st hs => step_symm prob cfg st hs
  · exact run_placed_symm prob cfg
  · intro pl hs
    constructor
    · intro l1 l2 p h1 h2
      have e1 := (hs l1 p).mpr h1
      have e2 := (hs l2 p).mpr h2
      exact Option.some.inj (e1.symm.trans e2)
    · intro p1 p2 l h1 h2
      have e1 := (hs l p1).mp h1
      have e2 := (hs l p2).mp h2
      exact Option.some.inj (e1.symm.trans e2)

/-- Witness for C1: one engine step preserves symmetry of a concrete
symmetric placement, and that placement mates each physical node to at most
one logical node. -/
theorem mating_symmetry_invariant_witness :
    MatingSymmetric (step demoProb demoCfg ⟨demoPlacement, 3, 0⟩).pl ∧
    (∀ l1 l2 p, demoPlacement.l2p l1 = some p → demoPlacement.l2p l2 = some p →
      l1 = l2) :=
  ⟨(mating_symmetry_invariant demoProb demoCfg).2.1 ⟨demoPlacement, 3, 0⟩
      demoPlacement_symm,
   ((mating_symmetry_invariant demoProb demoCfg).2.2.2 demoPlacement
      demoPlacement_symm).1⟩

/-- C2: the cost function is non-negative (it is a sum of natural-number
penalties), and a placement of cost zero satisfies every logical edge per
the evaluator's `edgeSatisfied` predicate. -/
theorem zero_cost_full_satisfaction :
    ∀ (reach : Nat → Nat → Nat → Nat → Bool) (edges : List LEdge)
      (pl : Placement),
      (cost reach edges pl = 0 → ∀ e ∈ edges, edgeSatisfied reach pl e = true) ∧
      0 ≤ cost reach edges pl := by
  intro reach edges pl
  exact ⟨cost_zero_all_satisfied reach edges pl, Nat.zero_le _⟩

/-- Witness for C2: a concrete zero-cost placement satisfies its single
logical edge. -/
theorem zero_cost_full_satisfaction_witness :
    edgeSatisfied demoProb.reach demoPlacement ⟨0, 0, 1, 0⟩ = true :=
  (zero_cost_full_satisfaction demoProb.reach [⟨0, 0, 1, 0⟩] demoPlacement).1
    rfl ⟨0, 0, 1, 0⟩ (List.mem_singleton.mpr rfl)

/-- C3: monotonic acceptance. The accept policy accepts every delta that is
negative or zero, and only a strictly positive delta can ever be rejected;
consequently in the loop itself a legal move proposal whose delta is
non-positive is always applied (the placement after `tryMove` or `trySwap`
is the perturbed one, never the restored one). -/
theorem monotonic_acceptance :
    ∀ (cfg : PARConfig) (iter r : Nat) (delta : Int),
      (delta ≤ 0 → acceptMove cfg iter r delta = true) ∧
      (acceptMove cfg iter r delta = false → 0 < delta) ∧
      (∀ (prob : PARProblem) (st : EngineState) (x r3 : Nat) (c : Nat)
        (cs : List Nat),
        moveCandidates prob st.pl x = c :: cs →
        costDelta prob st.pl
            (st.pl.applyMove x ((c :: cs).getD (r3 % (c :: cs).length) 0)) ≤ 0 →
        (tryMove prob cfg st x r3 r).pl =
          st.pl.applyMove x ((c :: cs).getD (r3 % (c :: cs).length) 0)) ∧
      (∀ (prob : PARProblem) (st : EngineState) (x y px py : Nat),
        x ≠ y → st.pl.l2p x = some px → st.pl.l2p y = some py →
        (prob.compat (prob.llabels.getD x 0) (prob.plabels.getD py 0)
          && prob.compat (prob.llabels.getD y 0) (prob.plabels.getD px 0)) = true →
        costDelta prob st.pl (st.pl.applySwap x y) ≤ 0 →
        (trySwap prob cfg st x y r).pl = st.pl.applySwap x y) := by
  intro cfg iter r delta
  refine ⟨?_, ?_, ?_, ?_⟩
  · intro h
    unfold acceptMove
    rw [if_pos h]
  · intro h
    by_contra hpos
    have hle : delta ≤ 0 := by omega
    unfold acceptMove at h
    rw [if_pos hle] at h
    cases h
  · intro prob st x r3 c cs hm hd
    have hacc : acceptMove cfg st.iter r
        (costDelta prob st.pl
          (st.pl.applyMove x ((c :: cs).getD (r3 % (c :: cs).length) 0))) = true := by
      unfold acceptMove
      rw [if_pos hd]
    unfold tryMove
    rw [hm]
    simp only [List.getD_eq_getElem?_getD, List.length_cons] at hacc
    simp [hacc]
  · intro prob st x y px py hxy hx hy hcomp hd
    have hacc : acceptMove cfg st.iter r
        (costDelta prob st.pl (st.pl.applySwap x y)) = true := by
      unfold acceptMove
      rw [if_pos hd]
    unfold trySwap
    rw [if_neg hxy, hx, hy]
    simp only [Bool.and_eq_true, List.getD_eq_getElem?_getD] at hcomp
    simp [hcomp, hacc]

/-- Witness for C3: a delta of -1 is accepted at a concrete configuration,
iteration and random draw, and a rejection at this point implies a positive
delta. -/
theorem monotonic_acceptance_witness :
    acceptMove demoCfg 0 0 (-1) = true :=
  (monotonic_acceptance demoCfg 0 0 (-1)).1 (by decide)

/-- C4: determinism (two-run property). The engine is a pure function of
its inputs — the random state is threaded explicitly from the seed, and
cost and legality are pure functions of the placement and graphs — so two
runs on equal graphs and equal configuration (same seed) yield identical
results, identical final placements and identical iteration counts. -/
theorem run_two_runs_identical :
    ∀ (prob1 prob2 : PARProblem) (cfg1 cfg2 : PARConfig),
      prob1 = prob2 → cfg1 = cfg2 →
      (run prob1 cfg1).result = (run prob2 cfg2).result ∧
      (run prob1 cfg1).iterations = (run prob2 cfg2).iterations ∧
      (∀ pl1 pl2 : Placement, pl1 = pl2 →
        cost prob1.reach prob1.edges pl1 = cost prob2.reach prob2.edges pl2 ∧
        ∀ lab plab : Nat, prob1.compat lab plab = prob2.compat lab plab) := by
  intro prob1 prob2 cfg1 cfg2 hp hc
  subst hp
  subst hc
  refine ⟨rfl, rfl, ?_⟩
  intro pl1 pl2 h
  rw [h]
  exact ⟨rfl, fun _ _ => rfl⟩

/-- Witness for C4: two runs of the demo problem under the demo
configuration have identical iteration counts and results. -/
theorem run_two_runs_identical_witness :
    (run demoProb demoCfg).result = (run demoProb demoCfg).result ∧
    (run demoProb demoCfg).iterations = (run demoProb demoCfg).iterations :=
  ⟨(run_two_runs_identical demoProb demoProb demoCfg demoCfg rfl rfl).1,
   (run_two_runs_identical demoProb demoProb demoCfg demoCfg rfl rfl).2.1⟩

/-- C5: feasibility pre-check. Whenever some logical label has more logical
nodes than there are physical nodes with a compatible label, the run fails
with `InfeasibleCapacity`, reporting a deficient label together with its
logical and compatible-physical counts, and zero search iterations run. -/
theorem infeasible_capacity_precheck :
    ∀ (prob : PARProblem) (cfg : PARConfig),
      (∃ lab ∈ prob.llabels,
        countCompat prob.compat prob.plabels lab <
          countLabel prob.llabels lab) →
      ∃ lab,
        (run prob cfg).result =
          PARResult.InfeasibleCapacity lab (countLabel prob.llabels lab)
            (countCompat prob.compat prob.plabels lab) ∧
        countCompat prob.compat prob.plabels lab <
          countLabel prob.llabels lab ∧
        (run prob cfg).iterations = 0 := by
  intro prob cfg hex
  rcases hfind : prob.llabels.find?
      (fun lab => countCompat prob.compat prob.plabels lab <
        countLabel prob.llabels lab) with _ | lab0
  · exfalso
    obtain ⟨lab, hmem, hlt⟩ := hex
    have := List.find?_eq_none.mp hfind lab hmem
    simp only [decide_eq_true_eq] at this
    exact this hlt
  · have hpred := List.find?_some hfind
    simp only [decide_eq_true_eq] at hpred
    have hcap : capacityCheck prob.compat prob.llabels prob.plabels =
        some (lab0, countLabel prob.llabels lab0,
          countCompat prob.compat prob.plabels lab0) := by
      unfold capacityCheck
      rw [hfind]
    refine ⟨lab0, ?_, hpred, ?_⟩
    · unfold run
      rw [hcap]
    · unfold run
      rw [hcap]

/-- Witness for C5: three logical nodes of label 7 against two compatible
physical nodes fail the pre-check with the deficient label and counts,
before any iteration runs. -/
theorem infeasible_capacity_precheck_witness :
    ∃ lab,
      (run demoInfeasibleProb demoCfg).result =
        PARResult.InfeasibleCapacity lab
          (countLabel demoInfeasibleProb.llabels lab)
          (countCompat demoInfeasibleProb.compat demoInfeasibleProb.plabels lab) ∧
      countCompat demoInfeasibleProb.compat demoInfeasibleProb.plabels lab <
        countLabel demoInfeasibleProb.llabels lab ∧
      (run demoInfeasibleProb demoCfg).iterations = 0 :=
  infeasible_capacity_precheck demoInfeasibleProb demoCfg (by decide)

/-- C6: swap frame property. After a swap of two distinct mated logical
nodes X and Y, X's new physical mate is Y's old one and Y's new physical
mate is X's old one, and the mating references of every other logical node
and every other physical node are unchanged. -/
theorem swap_frame_property :
    ∀ (pl : Placement) (x y px py : Nat),
      MatingSymmetric pl → x ≠ y →
      pl.l2p x = some px → pl.l2p y = some py →
      (pl.applySwap x y).l2p x = some py ∧
      (pl.applySwap x y).l2p y = some px ∧
      (∀ z, z ≠ x → z ≠ y → (pl.applySwap x y).l2p z = pl.l2p z) ∧
      (pl.applySwap x y).p2l px = some y ∧
      (pl.applySwap x y).p2l py = some x ∧
      (∀ q, q ≠ px → q ≠ py → (pl.applySwap x y).p2l q = pl.p2l q) := by
  intro pl x y px py hs hxy hx hy
  have hpx : pl.p2l px = some x := (hs x px).mpr hx
  have hpy : pl.p2l py = some y := (hs y py).mpr hy
  have hpp : px ≠ py := by
    intro e
    rw [e, hpy] at hpx
    exact hxy (Option.some.inj hpx).symm
  have hyx : ¬ y = x := fun e => hxy e.symm
  have hpyx : ¬ py = px := fun e => hpp e.symm
  refine ⟨?_, ?_, ?_, ?_, ?_, ?_⟩
  · simp [Placement.applySwap, hx, hy]
  · simp [Placement.applySwap, hx, hy, hyx]
  · intro z hzx hzy
    simp [Placement.applySwap, hx, hy, hzx, hzy]
  · simp [Placement.applySwap, hx, hy]
  · simp [Placement.applySwap, hx, hy, hpyx]
  · intro q hqx hqy
    simp [Placement.applySwap, hx, hy, hqx, hqy]

/-- Witness for C6: swapping the two mated nodes of the concrete placement
exchanges their physical mates and leaves an unrelated node unchanged. -/
theorem swap_frame_property_witness :
    (demoPlacement.applySwap 0 1).l2p 0 = some 1 ∧
    (demoPlacement.applySwap 0 1).l2p 1 = some 0 ∧
    (demoPlacement.applySwap 0 1).l2p 2 = demoPlacement.l2p 2 :=
  ⟨(swap_frame_property demoPlacement 0 1 0 1 demoPlacement_symm
      (by decide) rfl rfl).1,
   (swap_frame_property demoPlacement 0 1 0 1 demoPlacement_symm
      (by decide) rfl rfl).2.1,
   (swap_frame_property demoPlacement 0 1 0 1 demoPlacement_symm
      (by decide) rfl rfl).2.2.1 2 (by decide) (by decide)⟩

end OpenFPGA
